import Mathlib

/-!
Verification of `src/sitemap-generator.js` (NotionSitemapGen).

The script mirrors the Notion page/database hierarchy rooted at a given page
into a rendered outline on a separate sitemap page.  We embed its functions
shallowly:

* The remote Notion API is modelled by an explicit environment (`NotionEnv`):
  `pages.retrieve` either throws (`Except.error`) or returns a page object,
  and `blocks.children.list` is modelled by the sequence of paginated
  responses the API would serve for a block id (the i-th fetch receives the
  i-th entry; `has_more` tells the loop whether to fetch again).
* `new Date().toLocaleString('es-ES')` is impure, so the timestamp is passed
  to `updateSitemapPage` as an explicit `now : String` argument.
* JS objects become structures; absent optional fields become `Option`;
  JS `Set` insertion order is irrelevant to membership, so the `visited` set
  is a `List String` extended at the tail.
-/

/-- Source constant `MAX_DEPTH = 4` — "Prevent infinite recursion" (line 9). -/
def MAX_DEPTH : Nat := 4

/-- One rich-text element inside a page property (only `plain_text` is read). -/
structure RichTextObj where
  plain_text : String
deriving DecidableEq

/-- A property value of a retrieved page: its `type` tag and its optional
`title` array (non-title properties have no `title` field, modelled `none`). -/
structure PropertyValue where
  type : String
  title : Option (List RichTextObj)
deriving DecidableEq

/-- The result object of `notion.pages.retrieve`: the fields the script reads. -/
structure NotionPage where
  object : String
  properties : List (String × PropertyValue)
  last_edited_time : String
deriving DecidableEq

/-- The record `getPageDetails` returns on success (lines 19-25). -/
structure PageDetails where
  id : String
  title : String
  url : String
  type : String
  lastEdited : String
deriving DecidableEq

/-- One element of a `blocks.children.list` response.  `title` models the
payload title under the matching key (`block.child_page.title` resp.
`block.child_database.title`); blocks of other types never have it read. -/
structure NotionBlock where
  id : String
  type : String
  title : String
deriving DecidableEq

/-- One paginated response of `blocks.children.list`: its `results` and its
`has_more` flag.  Following `next_cursor` is modelled by moving to the next
entry of the response sequence. -/
structure ListResponse where
  results : List NotionBlock
  has_more : Bool
deriving DecidableEq

/-- The remote API as seen by the script. -/
structure NotionEnv where
  retrievePage : String → Except String NotionPage
  listResponses : String → List (Except String ListResponse)

/-- The node url: `https://www.notion.so/` followed by the id with every
dash removed by `id.replace` with a global dash regex (lines 22 and 123). -/
def notionUrl (pageId : String) : String :=
  "https://www.notion.so/" ++ pageId.replace "-" ""

/-- Source access `v.title?.[0]?.plain_text` followed by a JS truthiness test: the first
rich-text element's `plain_text`, provided it exists and is non-empty. -/
def truthyTitle (v : PropertyValue) : Option String :=
  match v.title with
  | some (r :: _) => if r.plain_text = "" then none else some r.plain_text
  | _ => none

/-- Look a property up by key (JS object member access on `page.properties`). -/
def lookupProp (props : List (String × PropertyValue)) (key : String) :
    Option PropertyValue :=
  (props.find? (fun p => p.1 == key)).map (fun p => p.2)

/-- The `for (const [key, value] of Object.entries(page.properties))` loop of
`extractTitle` (lines 43-47): first property of type `title` with truthy text. -/
def firstTitleProp : List (String × PropertyValue) → Option String
  | [] => none
  | (_, v) :: rest =>
    if v.type = "title" then
      match truthyTitle v with
      | some s => some s
      | none => firstTitleProp rest
    else firstTitleProp rest

/-- Source function `extractTitle` (lines 35-49). -/
def extractTitle (page : NotionPage) : String :=
  match (lookupProp page.properties "title").bind truthyTitle with
  | some s => s
  | none =>
    match (lookupProp page.properties "Name").bind truthyTitle with
    | some s => s
    | none => (firstTitleProp page.properties).getD "Untitled"

/-- Source function `getPageDetails` (lines 14-30): on success the metadata record, on a
thrown error `null`; the single try/catch swallows the error. -/
def getPageDetails (env : NotionEnv) (pageId : String) : Option PageDetails :=
  match env.retrievePage pageId with
  | Except.error _ => none
  | Except.ok page =>
    some ⟨pageId, extractTitle page, notionUrl pageId, page.object,
      page.last_edited_time⟩

/-- An element of the list returned by `getChildPages` (lines 69-80). -/
structure ChildItem where
  id : String
  title : String
  type : String
deriving DecidableEq

/-- The per-block body of the `for (const block of response.results)` loop
(lines 67-82): a `child_page` block yields a page item, a `child_database`
block a database item, anything else nothing. -/
def blockToChildItems (block : NotionBlock) : List ChildItem :=
  (if block.type = "child_page" then [⟨block.id, block.title, "page"⟩] else [])
    ++
  (if block.type = "child_database" then [⟨block.id, block.title, "database"⟩]
   else [])

/-- The `while (hasMore)` pagination loop of `getChildPages` (lines 59-90):
consume responses while `has_more` holds; a thrown error breaks the loop,
keeping what was accumulated so far. -/
def getChildPagesLoop : List (Except String ListResponse) → List ChildItem
  | [] => []
  | Except.error _ :: _ => []
  | Except.ok resp :: rest =>
    (resp.results.map blockToChildItems).flatten
      ++ (if resp.has_more then getChildPagesLoop rest else [])

/-- Source function `getChildPages` (lines 54-93). -/
def getChildPages (env : NotionEnv) (pageId : String) : List ChildItem :=
  getChildPagesLoop (env.listResponses pageId)

/-- A node of the sitemap tree built by `buildSitemapTree` (lines 120-135):
the spread page details (or database child item) plus `children` and `depth`.
Database leaves carry no `lastEdited` field, hence the `Option`. -/
inductive SitemapNode : Type where
  | mk (id : String) (title : String) (url : String) (type : String)
      (children : List SitemapNode) (depth : Nat) (lastEdited : Option String)

def SitemapNode.id : SitemapNode → String
  | SitemapNode.mk i _ _ _ _ _ _ => i

def SitemapNode.title : SitemapNode → String
  | SitemapNode.mk _ t _ _ _ _ _ => t

def SitemapNode.url : SitemapNode → String
  | SitemapNode.mk _ _ u _ _ _ _ => u

def SitemapNode.type : SitemapNode → String
  | SitemapNode.mk _ _ _ ty _ _ _ => ty

def SitemapNode.children : SitemapNode → List SitemapNode
  | SitemapNode.mk _ _ _ _ cs _ _ => cs

def SitemapNode.depth : SitemapNode → Nat
  | SitemapNode.mk _ _ _ _ _ d _ => d

def SitemapNode.lastEdited : SitemapNode → Option String
  | SitemapNode.mk _ _ _ _ _ _ le => le

mutual

/-- Source function `buildSitemapTree` (lines 98-136).  The JS `visited` Set is mutated in
place and shared across recursive calls, so the embedding threads it through
and returns it next to the result.  Termination is exactly the source's
`depth > MAX_DEPTH` guard. -/
def buildSitemapTree (env : NotionEnv) (pageId : String) (depth : Nat)
    (visited : List String) : Option SitemapNode × List String :=
  if MAX_DEPTH < depth ∨ pageId ∈ visited then (none, visited)
  else
    let visited1 := visited ++ [pageId]
    match getPageDetails env pageId with
    | none => (none, visited1)
    | some pd =>
      let childItems := getChildPages env pageId
      let res := buildChildren env childItems depth visited1
      (some (SitemapNode.mk pd.id pd.title pd.url pd.type res.1 depth
        (some pd.lastEdited)), res.2)
termination_by (MAX_DEPTH + 2 - depth, 0)

/-- The `for (const child of childItems)` loop of `buildSitemapTree`
(lines 111-129): page children recurse at `depth + 1` and are kept when
non-null; database children become leaves at `depth + 1`. -/
def buildChildren (env : NotionEnv) (items : List ChildItem) (depth : Nat)
    (visited : List String) : List SitemapNode × List String :=
  match items with
  | [] => ([], visited)
  | child :: rest =>
    if child.type = "page" then
      let cres := buildSitemapTree env child.id (depth + 1) visited
      let rres := buildChildren env rest depth cres.2
      ((match cres.1 with
        | some t => t :: rres.1
        | none => rres.1), rres.2)
    else if child.type = "database" then
      let node := SitemapNode.mk child.id
        (if child.title = "" then "Untitled Database" else child.title)
        (notionUrl child.id) "database" [] (depth + 1) none
      let rres := buildChildren env rest depth visited
      (node :: rres.1, rres.2)
    else
      buildChildren env rest depth visited
termination_by (MAX_DEPTH + 1 - depth, items.length)

end

/-- Source function `getEmojiForDepth` (lines 200-204). -/
def getEmojiForDepth (depth : Nat) (ty : String) : String :=
  if ty = "database" then "🗃️"
  else
    let emojis := ["🏢", "📁", "📄", "📎", "•"]
    emojis.getD (min depth (emojis.length - 1)) ""

/-- One rich-text element of a rendered block: `content`, optional `link`
url, and the `annotations` the script sets (absent annotations are the
defaults `false` / `none`). -/
structure RichTextItem where
  content : String
  link : Option String
  bold : Bool
  italic : Bool
  color : Option String
deriving DecidableEq

/-- A Notion block as assembled by the script: the rendered block kinds
(lines 150-186, 226-244) plus `other` for pre-existing content of the
sitemap page, whose type the script never inspects. -/
inductive Block : Type where
  | heading_1 (rich_text : List RichTextItem)
  | bulleted_list_item (rich_text : List RichTextItem)
  | callout (rich_text : List RichTextItem) (icon : String) (color : String)
  | divider
  | other (type : String)
deriving DecidableEq

mutual

/-- Source function `treeToNotionBlocks` on a non-null tree (lines 141-195): the root call
(depth 0) pushes a `heading_1`, deeper calls push a `bulleted_list_item`
whose rich text is `[emoji, linked title, optional " [DB]" tag]` with the
null tag filtered out, then the children are rendered at `depth + 1`. -/
def treeBlocksGo : SitemapNode → Nat → List Block
  | SitemapNode.mk _ title url ty children _ _, depth =>
    let emoji := getEmojiForDepth depth ty
    (if depth = 0 then
      [Block.heading_1 [⟨emoji ++ " " ++ title, none, false, false, none⟩]]
    else
      [Block.bulleted_list_item
        (([some ⟨emoji ++ " ", none, false, false, none⟩,
           some ⟨title, some url, decide (depth = 1), false, none⟩,
           if ty = "database" then some ⟨" [DB]", none, false, true, some "gray"⟩
           else none] : List (Option RichTextItem)).filterMap id)])
      ++ treeBlocksChildren children (depth + 1)

/-- The `for (const child of tree.children)` loop of `treeToNotionBlocks`
(lines 190-192). -/
def treeBlocksChildren : List SitemapNode → Nat → List Block
  | [], _ => []
  | c :: cs, depth => treeBlocksGo c depth ++ treeBlocksChildren cs depth

end

/-- Source function `treeToNotionBlocks` as called from `main` (line 295): default
`depth = 0`, and a null tree yields no blocks (line 144). -/
def treeToNotionBlocks : Option SitemapNode → List Block
  | none => []
  | some t => treeBlocksGo t 0

mutual

/-- Source function `countPages` on a non-null tree (lines 267-270): one for the node plus
the recursive sum over its children. -/
def countPagesNode : SitemapNode → Nat
  | SitemapNode.mk _ _ _ _ cs _ _ => 1 + countPagesChildren cs

def countPagesChildren : List SitemapNode → Nat
  | [] => 0
  | c :: cs => countPagesNode c + countPagesChildren cs

end

/-- Source function `countPages` (lines 267-270): null trees count 0. -/
def countPages : Option SitemapNode → Nat
  | none => 0
  | some t => countPagesNode t

/-- Default (and maximum) `page_size` of `blocks.children.list`: the call on
line 212 passes no `page_size` and no cursor, so the Notion API returns at
most the first 100 children of the sitemap page. -/
def LIST_DEFAULT_PAGE_SIZE : Nat := 100

/-- The metadata header (lines 226-244): a callout carrying the last-updated
timestamp and a divider. -/
def metadataBlocks (now : String) : List Block :=
  [Block.callout
      [⟨"Auto-generated sitemap • Last updated: " ++ now, none, false, false,
        none⟩]
      "🗺️" "blue_background",
    Block.divider]

/-- The batching loop `for (let i = 0; i < allBlocks.length; i += 100)`
(lines 249-255): the batch sent at index `i` is `allBlocks.slice(i, i + 100)`. -/
def sliceBatches (allBlocks : List Block) (i : Nat) : List (List Block) :=
  if i < allBlocks.length then
    (allBlocks.drop i).take 100 :: sliceBatches allBlocks (i + 100)
  else []
termination_by allBlocks.length - i

/-- Sequentially appending each batch to the end of the page's children
(`notion.blocks.children.append`, lines 251-254). -/
def appendBatches (page : List Block) : List (List Block) → List Block
  | [] => page
  | b :: bs => appendBatches (page ++ b) bs

/-- The observable effect of one `updateSitemapPage` run. -/
structure UpdateResult where
  /-- The blocks the run deleted from the sitemap page. -/
  deleted : List Block
  /-- The successive `children` arguments passed to `blocks.children.append`. -/
  appendCalls : List (List Block)
  /-- The children of the sitemap page after the run. -/
  finalBlocks : List Block
deriving DecidableEq

/-- Source function `updateSitemapPage` (lines 209-262), acting on a sitemap page whose
current children are `existing`.  The single un-paginated
`blocks.children.list` call (line 212) yields the first
`LIST_DEFAULT_PAGE_SIZE` children, each of which is then deleted (deletion
by id; Notion block ids are unique, so this removes exactly the listed
prefix).  `[...metadataBlocks, ...blocks]` is then appended in batches. -/
def updateSitemapPage (blocks : List Block) (existing : List Block)
    (now : String) : UpdateResult :=
  let listed := existing.take LIST_DEFAULT_PAGE_SIZE
  let remaining := existing.drop LIST_DEFAULT_PAGE_SIZE
  let allBlocks := metadataBlocks now ++ blocks
  let calls := sliceBatches allBlocks 0
  ⟨listed, calls, appendBatches remaining calls⟩

/-! ## Specification-side definitions

The following definitions are written from the spec's and claims' words, to
be compared with the embedded source functions above. -/

mutual

/-- Spec: the depth-first preorder listing of a tree's nodes with the depth
each one is rendered at — a node precedes its children, children in order,
each child one level deeper. -/
def preorderNodes : SitemapNode → Nat → List (SitemapNode × Nat)
  | SitemapNode.mk i ti u ty cs dp le, d =>
    (SitemapNode.mk i ti u ty cs dp le, d) :: preorderForest cs (d + 1)

/-- Spec: preorder listing of a forest, left to right. -/
def preorderForest : List SitemapNode → Nat → List (SitemapNode × Nat)
  | [], _ => []
  | c :: cs, d => preorderNodes c d ++ preorderForest cs d

end

/-- Spec: the single display block a node rendered at depth `d` yields — a
`heading_1` at the root (depth 0), otherwise one bulleted item whose rich
text carries the hierarchy marker `getEmojiForDepth d`, the title linked to
the node's url (bold exactly at depth 1), and a " [DB]" tag on databases. -/
def renderedBlockSpec : SitemapNode × Nat → Block
  | (t, d) =>
    if d = 0 then
      Block.heading_1
        [⟨getEmojiForDepth 0 t.type ++ " " ++ t.title, none, false, false,
          none⟩]
    else
      Block.bulleted_list_item
        (([some ⟨getEmojiForDepth d t.type ++ " ", none, false, false, none⟩,
           some ⟨t.title, some t.url, decide (d = 1), false, none⟩,
           if t.type = "database" then
             some ⟨" [DB]", none, false, true, some "gray"⟩
           else none] : List (Option RichTextItem)).filterMap id)

mutual

/-- All nodes of a tree (the tree itself and, recursively, the nodes of its
children). -/
def nodesOf : SitemapNode → List SitemapNode
  | SitemapNode.mk i ti u ty cs dp le =>
    SitemapNode.mk i ti u ty cs dp le :: nodesOfForest cs

/-- All nodes of a forest. -/
def nodesOfForest : List SitemapNode → List SitemapNode
  | [] => []
  | c :: cs => nodesOf c ++ nodesOfForest cs

end

/-- Ids of the page nodes (type `"page"`) of a tree, in preorder. -/
def pageIdsOf (t : SitemapNode) : List String :=
  ((nodesOf t).filter (fun n => n.type == "page")).map SitemapNode.id

/-- Ids of the page nodes of a forest, in preorder. -/
def pageIdsOfForest (cs : List SitemapNode) : List String :=
  ((nodesOfForest cs).filter (fun n => n.type == "page")).map SitemapNode.id

/-- Every node of the tree has `depth ≤ b`. -/
def depthsLeB (b : Nat) (t : SitemapNode) : Bool :=
  (nodesOf t).all (fun n => decide (n.depth ≤ b))

/-- Every `"database"` node of the tree is a leaf. -/
def dbLeavesB (t : SitemapNode) : Bool :=
  (nodesOf t).all (fun n => !(n.type == "database") || n.children.isEmpty)

/-- The remote API is well formed in the one respect the claims rely on:
`pages.retrieve` only ever returns page objects (`object = "page"`), as the
Notion endpoint does. -/
def pagesOnly (env : NotionEnv) : Prop :=
  ∀ pid page, env.retrievePage pid = Except.ok page → page.object = "page"

/-- Spec: a well-formed pagination run — every response announces
`has_more` exactly while further responses follow. -/
def paginationChain : List ListResponse → Bool
  | [] => true
  | [r] => !r.has_more
  | r :: rest => r.has_more && paginationChain rest

/-- Spec: what the child lister should keep of one raw block — the
`child_page` blocks as page items and the `child_database` blocks as
database items, everything else dropped. -/
def childItemSpec (b : NotionBlock) : Option ChildItem :=
  if b.type = "child_page" then some ⟨b.id, b.title, "page"⟩
  else if b.type = "child_database" then some ⟨b.id, b.title, "database"⟩
  else none

/-! ## Concrete remote environments used to evaluate the embedding -/

/-- A generic retrieved page: a page object with one title property. -/
def pageW : NotionPage := ⟨"page", [("title", ⟨"title", some [⟨"T"⟩]⟩)], "2024"⟩

/-- Child listings of a five-level page chain `r → a → b → c → d` whose
deepest page `d` contains a database `e`. -/
def depthChainList : String → List (Except String ListResponse) := fun pid =>
  if pid = "r" then [Except.ok ⟨[⟨"a", "child_page", "A"⟩], false⟩]
  else if pid = "a" then [Except.ok ⟨[⟨"b", "child_page", "B"⟩], false⟩]
  else if pid = "b" then [Except.ok ⟨[⟨"c", "child_page", "C"⟩], false⟩]
  else if pid = "c" then [Except.ok ⟨[⟨"d", "child_page", "D"⟩], false⟩]
  else if pid = "d" then [Except.ok ⟨[⟨"e", "child_database", "E"⟩], false⟩]
  else [Except.ok ⟨[], false⟩]

/-- Remote hierarchy with the five-level chain and a database at the end. -/
def envDepthChain : NotionEnv := ⟨fun _ => Except.ok pageW, depthChainList⟩

/-- Child listings of a two-page cycle `a → b → a`. -/
def cycleList : String → List (Except String ListResponse) := fun pid =>
  if pid = "a" then [Except.ok ⟨[⟨"b", "child_page", "B"⟩], false⟩]
  else if pid = "b" then [Except.ok ⟨[⟨"a", "child_page", "A"⟩], false⟩]
  else [Except.ok ⟨[], false⟩]

/-- Remote hierarchy containing a cycle between pages `a` and `b`. -/
def envCycle : NotionEnv := ⟨fun _ => Except.ok pageW, cycleList⟩

/-- Child listings where page `r` contains a database `d` and the database
itself has a remote child page `x`. -/
def dbChildrenList : String → List (Except String ListResponse) := fun pid =>
  if pid = "r" then [Except.ok ⟨[⟨"d", "child_database", "D"⟩], false⟩]
  else if pid = "d" then [Except.ok ⟨[⟨"x", "child_page", "X"⟩], false⟩]
  else [Except.ok ⟨[], false⟩]

/-- Remote hierarchy with a non-empty database under the root. -/
def envDbChildren : NotionEnv := ⟨fun _ => Except.ok pageW, dbChildrenList⟩

/-- A retrieval that succeeds everywhere except on page `q`. -/
def envErr : NotionEnv :=
  ⟨fun pid => if pid = "q" then Except.error "boom" else Except.ok pageW,
    fun _ => [Except.ok ⟨[], false⟩]⟩

/-- A two-response pagination run under block `p`: the first response holds a
child page and a paragraph and announces more, the second holds a child
database and ends the run. -/
def envPaged : NotionEnv :=
  ⟨fun _ => Except.ok pageW,
    fun pid =>
      if pid = "p" then
        [Except.ok ⟨[⟨"c1", "child_page", "C1"⟩, ⟨"t1", "paragraph", ""⟩],
           true⟩,
         Except.ok ⟨[⟨"c2", "child_database", "C2"⟩], false⟩]
      else [Except.ok ⟨[], false⟩]⟩

/-- An arbitrary pre-existing block of the sitemap page. -/
def staleBlock : Block := Block.other "paragraph"

/-- The facts one `buildSitemapTree` call guarantees: the visited set only
grows, and a returned tree is rooted at the call's depth, depth-bounded by
`MAX_DEPTH + 1`, and — when the API only serves page objects — has database
nodes only as leaves and pairwise distinct page ids, all freshly visited. -/
def TreeInv (env : NotionEnv) (pid : String) (d : Nat) (v : List String) :
    Prop :=
  (∀ x ∈ v, x ∈ (buildSitemapTree env pid d v).2) ∧
  ∀ t, (buildSitemapTree env pid d v).1 = some t →
    t.depth = d ∧ depthsLeB (MAX_DEPTH + 1) t = true ∧
    (pagesOnly env →
      dbLeavesB t = true ∧ (pageIdsOf t).Nodup ∧
      ∀ x ∈ pageIdsOf t, x ∈ (buildSitemapTree env pid d v).2 ∧ x ∉ v)

/-- The corresponding facts for the `buildChildren` loop, entered below the
depth cap. -/
def ChildrenInv (env : NotionEnv) (items : List ChildItem) (d : Nat)
    (v : List String) : Prop :=
  d ≤ MAX_DEPTH →
  (∀ x ∈ v, x ∈ (buildChildren env items d v).2) ∧
  (∀ c ∈ (buildChildren env items d v).1,
    c.depth = d + 1 ∧ depthsLeB (MAX_DEPTH + 1) c = true) ∧
  (pagesOnly env →
    (∀ c ∈ (buildChildren env items d v).1, dbLeavesB c = true) ∧
    (pageIdsOfForest (buildChildren env items d v).1).Nodup ∧
    ∀ x ∈ pageIdsOfForest (buildChildren env items d v).1,
      x ∈ (buildChildren env items d v).2 ∧ x ∉ v)

/-! ## Helper lemmas -/

theorem SitemapNode.ind {motive : SitemapNode → Prop}
    (h : ∀ i ti u ty cs dp le, (∀ c ∈ cs, motive c) →
      motive (SitemapNode.mk i ti u ty cs dp le)) : ∀ t, motive t := fun t =>
  match t with
  | SitemapNode.mk i ti u ty cs dp le =>
    h i ti u ty cs dp le (fun c _ => SitemapNode.ind h c)
termination_by t => sizeOf t
decreasing_by
  rename_i hc
  have h1 := List.sizeOf_lt_of_mem hc
  simp only [SitemapNode.mk.sizeOf_spec]
  omega

theorem nodesOf_mk (i ti u ty : String) (cs : List SitemapNode) (dp : Nat)
    (le : Option String) :
    nodesOf (SitemapNode.mk i ti u ty cs dp le) =
      SitemapNode.mk i ti u ty cs dp le :: nodesOfForest cs := by
  rw [nodesOf]

theorem mem_nodesOfForest {n : SitemapNode} :
    ∀ {cs : List SitemapNode}, n ∈ nodesOfForest cs ↔ ∃ c ∈ cs, n ∈ nodesOf c := by
  intro cs
  induction cs with
  | nil => simp [nodesOfForest]
  | cons c cs ih => simp [nodesOfForest, ih]

theorem depthsLeB_iff {b : Nat} {t : SitemapNode} :
    depthsLeB b t = true ↔ ∀ n ∈ nodesOf t, n.depth ≤ b := by
  simp [depthsLeB, List.all_eq_true]

theorem dbLeavesB_iff {t : SitemapNode} :
    dbLeavesB t = true ↔
      ∀ n ∈ nodesOf t, n.type = "database" → n.children.isEmpty = true := by
  simp only [dbLeavesB, List.all_eq_true, Bool.or_eq_true, Bool.not_eq_eq_eq_not,
    Bool.not_true, beq_eq_false_iff_ne, ne_eq]
  constructor
  · intro h n hn hdb
    rcases h n hn with h1 | h1
    · exact absurd hdb h1
    · exact h1
  · intro h n hn
    by_cases hdb : n.type = "database"
    · exact Or.inr (h n hn hdb)
    · exact Or.inl hdb

theorem pageIdsOf_mk (i ti u ty : String) (cs : List SitemapNode) (dp : Nat)
    (le : Option String) :
    pageIdsOf (SitemapNode.mk i ti u ty cs dp le) =
      (if ty = "page" then [i] else []) ++ pageIdsOfForest cs := by
  by_cases h : ty = "page" <;>
    simp [pageIdsOf, pageIdsOfForest, nodesOf_mk, List.filter_cons,
      SitemapNode.type, SitemapNode.id, h]

theorem pageIdsOfForest_nil : pageIdsOfForest [] = [] := rfl

theorem pageIdsOfForest_cons (c : SitemapNode) (cs : List SitemapNode) :
    pageIdsOfForest (c :: cs) = pageIdsOf c ++ pageIdsOfForest cs := by
  simp [pageIdsOfForest, pageIdsOf, nodesOfForest]

theorem treeBlocksChildren_eq_map (cs : List SitemapNode) (d : Nat)
    (h : ∀ c ∈ cs, ∀ e : Nat,
      treeBlocksGo c e = (preorderNodes c e).map renderedBlockSpec) :
    treeBlocksChildren cs d = (preorderForest cs d).map renderedBlockSpec := by
  induction cs with
  | nil => simp [treeBlocksChildren, preorderForest]
  | cons c cs ih =>
    rw [treeBlocksChildren, preorderForest, List.map_append,
      h c (by simp) d, ih (fun c hc e => h c (by simp [hc]) e)]

theorem treeBlocksGo_eq_map (t : SitemapNode) : ∀ d : Nat,
    treeBlocksGo t d = (preorderNodes t d).map renderedBlockSpec := by
  induction t using SitemapNode.ind with
  | _ i ti u ty cs dp le ih =>
    intro d
    rw [treeBlocksGo, preorderNodes, List.map_cons,
      treeBlocksChildren_eq_map cs (d + 1) (fun c hc e => ih c hc e)]
    by_cases hd : d = 0 <;>
      simp [renderedBlockSpec, hd, SitemapNode.type, SitemapNode.title,
        SitemapNode.url]

theorem preorderForest_length (cs : List SitemapNode) (d : Nat)
    (h : ∀ c ∈ cs, ∀ e : Nat, (preorderNodes c e).length = countPagesNode c) :
    (preorderForest cs d).length = countPagesChildren cs := by
  induction cs with
  | nil => simp [preorderForest, countPagesChildren]
  | cons c cs ih =>
    rw [preorderForest, countPagesChildren, List.length_append, h c (by simp) d,
      ih (fun c hc e => h c (by simp [hc]) e)]

theorem preorderNodes_length (t : SitemapNode) : ∀ d : Nat,
    (preorderNodes t d).length = countPagesNode t := by
  induction t using SitemapNode.ind with
  | _ i ti u ty cs dp le ih =>
    intro d
    rw [preorderNodes, countPagesNode, List.length_cons,
      preorderForest_length cs (d + 1) (fun c hc e => ih c hc e)]
    omega

theorem appendBatches_eq (bs : List (List Block)) : ∀ page : List Block,
    appendBatches page bs = page ++ bs.flatten := by
  induction bs with
  | nil => intro page; simp [appendBatches]
  | cons b bs ih => intro page; simp [appendBatches, ih]

theorem sliceBatches_flatten_aux (allBlocks : List Block) : ∀ k i : Nat,
    allBlocks.length ≤ i + k →
    (sliceBatches allBlocks i).flatten = allBlocks.drop i := by
  intro k
  induction k with
  | zero =>
    intro i h
    rw [sliceBatches, if_neg (by omega)]
    exact (List.drop_eq_nil_of_le (by omega)).symm
  | succ k ih =>
    intro i h
    rw [sliceBatches]
    by_cases hi : i < allBlocks.length
    · rw [if_pos hi, List.flatten_cons, ih (i + 100) (by omega)]
      have h2 := List.take_append_drop 100 (allBlocks.drop i)
      rw [List.drop_drop] at h2
      exact h2
    · rw [if_neg hi]
      exact (List.drop_eq_nil_of_le (by omega)).symm

theorem sliceBatches_flatten (allBlocks : List Block) :
    (sliceBatches allBlocks 0).flatten = allBlocks := by
  rw [sliceBatches_flatten_aux allBlocks allBlocks.length 0 (by omega)]
  exact List.drop_zero allBlocks

theorem sliceBatches_size_aux (allBlocks : List Block) : ∀ k i : Nat,
    allBlocks.length ≤ i + k →
    ∀ b ∈ sliceBatches allBlocks i, b.length ≤ 100 := by
  intro k
  induction k with
  | zero =>
    intro i h
    rw [sliceBatches, if_neg (by omega)]
    intro b hb
    cases hb
  | succ k ih =>
    intro i h
    rw [sliceBatches]
    by_cases hi : i < allBlocks.length
    · rw [if_pos hi]
      intro b hb
      rcases List.mem_cons.mp hb with h1 | h1
      · subst h1
        have := List.length_take 100 (allBlocks.drop i)
        omega
      · exact ih (i + 100) (by omega) b h1
    · rw [if_neg hi]
      intro b hb
      cases hb

theorem flatten_blockToChildItems (l : List NotionBlock) :
    (l.map blockToChildItems).flatten = l.filterMap childItemSpec := by
  induction l with
  | nil => rfl
  | cons b bs ih =>
    rw [List.map_cons, List.flatten_cons, List.filterMap_cons, ih]
    by_cases h1 : b.type = "child_page"
    · simp [blockToChildItems, childItemSpec, h1]
    · by_cases h2 : b.type = "child_database" <;>
        simp [blockToChildItems, childItemSpec, h1, h2]

theorem getChildPagesLoop_spec : ∀ rs : List ListResponse,
    paginationChain rs = true →
    getChildPagesLoop (rs.map Except.ok) =
      ((rs.map ListResponse.results).flatten).filterMap childItemSpec := by
  intro rs
  induction rs with
  | nil => intro _; rfl
  | cons r rest ih =>
    intro h
    cases rest with
    | nil =>
      have hm : r.has_more = false := by
        simpa [paginationChain] using h
      simp [getChildPagesLoop, hm, flatten_blockToChildItems]
    | cons r2 rest2 =>
      have h2 : r.has_more = true ∧ paginationChain (r2 :: rest2) = true := by
        simpa [paginationChain] using h
      rw [List.map_cons, getChildPagesLoop, h2.1, if_pos rfl, ih h2.2,
        flatten_blockToChildItems]
      simp [List.filterMap_append, List.flatten_cons, List.map_cons,
        List.append_assoc]

theorem buildSitemapTree_guard_eq {env : NotionEnv} {pid : String} {d : Nat}
    {v : List String} (hguard : MAX_DEPTH < d ∨ pid ∈ v) :
    buildSitemapTree env pid d v = (none, v) := by
  rw [buildSitemapTree, if_pos hguard]

theorem buildSitemapTree_none_eq {env : NotionEnv} {pid : String} {d : Nat}
    {v : List String} (hguard : ¬(MAX_DEPTH < d ∨ pid ∈ v))
    (hpd : getPageDetails env pid = none) :
    buildSitemapTree env pid d v = (none, v ++ [pid]) := by
  rw [buildSitemapTree, if_neg hguard]
  simp [hpd]

theorem buildSitemapTree_some_eq {env : NotionEnv} {pid : String} {d : Nat}
    {v : List String} (hguard : ¬(MAX_DEPTH < d ∨ pid ∈ v)) {pd : PageDetails}
    (hpd : getPageDetails env pid = some pd) :
    buildSitemapTree env pid d v =
      (some (SitemapNode.mk pd.id pd.title pd.url pd.type
          (buildChildren env (getChildPages env pid) d (v ++ [pid])).1 d
          (some pd.lastEdited)),
        (buildChildren env (getChildPages env pid) d (v ++ [pid])).2) := by
  rw [buildSitemapTree, if_neg hguard]
  simp [hpd]

theorem buildChildren_nil (env : NotionEnv) (d : Nat) (v : List String) :
    buildChildren env [] d v = ([], v) := by
  rw [buildChildren]

theorem buildChildren_page_some {env : NotionEnv} {child : ChildItem}
    {rest : List ChildItem} {d : Nat} {v : List String} {t : SitemapNode}
    (hpage : child.type = "page")
    (ht : (buildSitemapTree env child.id (d + 1) v).1 = some t) :
    buildChildren env (child :: rest) d v =
      (t :: (buildChildren env rest d
          (buildSitemapTree env child.id (d + 1) v).2).1,
        (buildChildren env rest d
          (buildSitemapTree env child.id (d + 1) v).2).2) := by
  rw [buildChildren]
  simp [hpage, ht]

theorem buildChildren_page_none {env : NotionEnv} {child : ChildItem}
    {rest : List ChildItem} {d : Nat} {v : List String}
    (hpage : child.type = "page")
    (ht : (buildSitemapTree env child.id (d + 1) v).1 = none) :
    buildChildren env (child :: rest) d v =
      buildChildren env rest d (buildSitemapTree env child.id (d + 1) v).2 := by
  rw [buildChildren]
  simp [hpage, ht]

theorem buildChildren_db {env : NotionEnv} {child : ChildItem}
    {rest : List ChildItem} {d : Nat} {v : List String}
    (_hpage : ¬child.type = "page") (hdb : child.type = "database") :
    buildChildren env (child :: rest) d v =
      (SitemapNode.mk child.id
          (if child.title = "" then "Untitled Database" else child.title)
          (notionUrl child.id) "database" [] (d + 1) none
        :: (buildChildren env rest d v).1,
        (buildChildren env rest d v).2) := by
  rw [buildChildren]
  simp [hdb]

theorem buildChildren_other {env : NotionEnv} {child : ChildItem}
    {rest : List ChildItem} {d : Nat} {v : List String}
    (hpage : ¬child.type = "page") (hdb : ¬child.type = "database") :
    buildChildren env (child :: rest) d v = buildChildren env rest d v := by
  rw [buildChildren]
  simp [hpage, hdb]

theorem getPageDetails_fields {env : NotionEnv} {pid : String}
    {pd : PageDetails} (h : getPageDetails env pid = some pd) :
    pd.id = pid ∧
      ∃ page, env.retrievePage pid = Except.ok page ∧ pd.type = page.object := by
  unfold getPageDetails at h
  cases hr : env.retrievePage pid with
  | error e => rw [hr] at h; cases h
  | ok page =>
    rw [hr] at h
    injection h with h
    subst h
    exact ⟨rfl, page, rfl, rfl⟩

theorem pagesOnly_constW (l : String → List (Except String ListResponse)) :
    pagesOnly ⟨fun _ => Except.ok pageW, l⟩ := by
  intro pid page h
  have h2 : pageW = page := Except.ok.inj h
  rw [← h2]
  rfl

theorem buildInvAux (env : NotionEnv) : ∀ k : Nat,
    (∀ pid d v, MAX_DEPTH + 2 - d ≤ k → TreeInv env pid d v) ∧
    (∀ items d v, MAX_DEPTH + 2 - d ≤ k → ChildrenInv env items d v) := by
  intro k
  induction k with
  | zero =>
    constructor
    · intro pid d v hk
      have hd : MAX_DEPTH < d := by omega
      simp only [TreeInv, buildSitemapTree_guard_eq (Or.inl hd)]
      refine ⟨fun x hx => hx, ?_⟩
      intro t ht
      simp at ht
    · intro items d v hk
      intro hd
      exfalso
      omega
  | succ k ih =>
    have L : ∀ items d v, MAX_DEPTH + 2 - d ≤ k + 1 → ChildrenInv env items d v := by
      intro items
      induction items with
      | nil =>
        intro d v hk hd
        simp only [buildChildren_nil]
        refine ⟨fun x hx => hx, by simp, ?_⟩
        intro _
        refine ⟨by simp, by simp [pageIdsOfForest_nil], by simp [pageIdsOfForest_nil]⟩
      | cons child rest ihrest =>
        intro d v hk hd
        by_cases hpage : child.type = "page"
        · have htree := ih.1 child.id (d + 1) v (by omega)
          simp only [TreeInv] at htree
          cases hres : (buildSitemapTree env child.id (d + 1) v).1 with
          | none =>
            simp only [buildChildren_page_none hpage hres]
            have hrest := ihrest d ((buildSitemapTree env child.id (d + 1) v).2)
              hk hd
            obtain ⟨hmono2, hdepth2, hponly2⟩ := hrest
            refine ⟨fun x hx => hmono2 x (htree.1 x hx), hdepth2, ?_⟩
            intro hp
            obtain ⟨hdb2, hnd2, hfresh2⟩ := hponly2 hp
            refine ⟨hdb2, hnd2, ?_⟩
            intro x hx
            obtain ⟨hin, hnotin⟩ := hfresh2 x hx
            exact ⟨hin, fun hxv => hnotin (htree.1 x hxv)⟩
          | some t =>
            simp only [buildChildren_page_some hpage hres]
            have hrest := ihrest d ((buildSitemapTree env child.id (d + 1) v).2)
              hk hd
            obtain ⟨hmono2, hdepth2, hponly2⟩ := hrest
            obtain ⟨hmono1, hsome1⟩ := htree
            obtain ⟨htd, htle, htp⟩ := hsome1 t hres
            refine ⟨fun x hx => hmono2 x (hmono1 x hx), ?_, ?_⟩
            · intro c hc
              rcases List.mem_cons.mp hc with h1 | h1
              · subst h1
                exact ⟨htd, htle⟩
              · exact hdepth2 c h1
            · intro hp
              obtain ⟨hdbt, hndt, hfresht⟩ := htp hp
              obtain ⟨hdb2, hnd2, hfresh2⟩ := hponly2 hp
              refine ⟨?_, ?_, ?_⟩
              · intro c hc
                rcases List.mem_cons.mp hc with h1 | h1
                · subst h1; exact hdbt
                · exact hdb2 c h1
              · rw [pageIdsOfForest_cons, List.nodup_append]
                refine ⟨hndt, hnd2, ?_⟩
                intro x hx1 hx2
                obtain ⟨hin1, _⟩ := hfresht x hx1
                obtain ⟨_, hnotin2⟩ := hfresh2 x hx2
                exact hnotin2 hin1
              · intro x hx
                rw [pageIdsOfForest_cons, List.mem_append] at hx
                rcases hx with hx | hx
                · obtain ⟨hin1, hnotin1⟩ := hfresht x hx
                  exact ⟨hmono2 x hin1, hnotin1⟩
                · obtain ⟨hin2, hnotin2⟩ := hfresh2 x hx
                  exact ⟨hin2, fun hxv => hnotin2 (hmono1 x hxv)⟩
        · by_cases hdb : child.type = "database"
          · simp only [buildChildren_db hpage hdb]
            have hrest := ihrest d v hk hd
            obtain ⟨hmono2, hdepth2, hponly2⟩ := hrest
            refine ⟨hmono2, ?_, ?_⟩
            · intro c hc
              rcases List.mem_cons.mp hc with h1 | h1
              · subst h1
                refine ⟨rfl, ?_⟩
                rw [depthsLeB_iff]
                intro n hn
                rw [nodesOf_mk] at hn
                rcases List.mem_cons.mp hn with h2 | h2
                · subst h2
                  simp [SitemapNode.depth]
                  omega
                · simp [nodesOfForest] at h2
              · exact hdepth2 c h1
            · intro hp
              obtain ⟨hdb2, hnd2, hfresh2⟩ := hponly2 hp
              refine ⟨?_, ?_, ?_⟩
              · intro c hc
                rcases List.mem_cons.mp hc with h1 | h1
                · subst h1
                  rw [dbLeavesB_iff]
                  intro n hn
                  rw [nodesOf_mk] at hn
                  rcases List.mem_cons.mp hn with h2 | h2
                  · subst h2
                    intro _
                    simp [SitemapNode.children]
                  · simp [nodesOfForest] at h2
                · exact hdb2 c h1
              · rw [pageIdsOfForest_cons, pageIdsOf_mk, if_neg (by decide)]
                simpa using hnd2
              · intro x hx
                rw [pageIdsOfForest_cons, pageIdsOf_mk, if_neg (by decide)] at hx
                simp only [List.nil_append] at hx
                exact hfresh2 x hx
          · simp only [buildChildren_other hpage hdb]
            exact ihrest d v hk hd
    refine ⟨?_, L⟩
    intro pid d v hk
    by_cases hguard : MAX_DEPTH < d ∨ pid ∈ v
    · simp only [TreeInv, buildSitemapTree_guard_eq hguard]
      refine ⟨fun x hx => hx, ?_⟩
      intro t ht
      simp at ht
    · have hd : d ≤ MAX_DEPTH := by
        rcases not_or.mp hguard with ⟨hd4, _⟩
        omega
      have hnv : pid ∉ v := (not_or.mp hguard).2
      cases hpd : getPageDetails env pid with
      | none =>
        simp only [TreeInv, buildSitemapTree_none_eq hguard hpd]
        refine ⟨fun x hx => List.mem_append.mpr (Or.inl hx), ?_⟩
        intro t ht
        simp at ht
      | some pd =>
        simp only [TreeInv, buildSitemapTree_some_eq hguard hpd]
        have hci := L (getChildPages env pid) d (v ++ [pid]) hk hd
        obtain ⟨hmono, hdepths, hponly⟩ := hci
        refine ⟨fun x hx => hmono x (List.mem_append.mpr (Or.inl hx)), ?_⟩
        intro t ht
        injection ht with ht
        subst ht
        refine ⟨rfl, ?_, ?_⟩
        · rw [depthsLeB_iff]
          intro n hn
          rw [nodesOf_mk] at hn
          rcases List.mem_cons.mp hn with h2 | h2
          · subst h2
            simp [SitemapNode.depth]
            omega
          · rcases mem_nodesOfForest.mp h2 with ⟨c, hc, hnc⟩
            exact depthsLeB_iff.mp (hdepths c hc).2 n hnc
        · intro hp
          obtain ⟨hid, page, hpage, hty⟩ := getPageDetails_fields hpd
          have htype : pd.type = "page" := hty.trans (hp pid page hpage)
          obtain ⟨hdbs, hnd, hfresh⟩ := hponly hp
          refine ⟨?_, ?_, ?_⟩
          · rw [dbLeavesB_iff]
            intro n hn
            rw [nodesOf_mk] at hn
            rcases List.mem_cons.mp hn with h2 | h2
            · subst h2
              intro hcontra
              rw [SitemapNode.type, htype] at hcontra
              exact absurd hcontra (by decide)
            · rcases mem_nodesOfForest.mp h2 with ⟨c, hc, hnc⟩
              exact dbLeavesB_iff.mp (hdbs c hc) n hnc
          · rw [pageIdsOf_mk, if_pos htype, List.singleton_append,
              List.nodup_cons]
            refine ⟨?_, hnd⟩
            intro hcontra
            obtain ⟨_, hnotin⟩ := hfresh pd.id hcontra
            rw [hid] at hnotin
            exact hnotin (List.mem_append.mpr (Or.inr (by simp)))
          · intro x hx
            rw [pageIdsOf_mk, if_pos htype, List.singleton_append] at hx
            rcases List.mem_cons.mp hx with h2 | h2
            · subst h2
              rw [hid]
              exact ⟨hmono pid (List.mem_append.mpr (Or.inr (by simp))), hnv⟩
            · obtain ⟨hin, hnotin⟩ := hfresh x h2
              refine ⟨hin, ?_⟩
              intro hxv
              exact hnotin (List.mem_append.mpr (Or.inl hxv))

theorem treeInv_all (env : NotionEnv) (pid : String) (d : Nat)
    (v : List String) : TreeInv env pid d v :=
  (buildInvAux env (MAX_DEPTH + 2)).1 pid d v (by omega)

/-! ## Claim theorems -/

/-- C1 (code bug): `updateSitemapPage` is meant to clear the whole target
page, but its single `blocks.children.list` call is not paginated, so on a
target page holding 101 pre-existing blocks only the first 100 are deleted:
the 101st block survives and the new content is appended after it, so the
page is not wiped and rewritten. -/
theorem updateSitemapPage_unpaginated_delete_misses_blocks :
    (updateSitemapPage [] (List.replicate 101 staleBlock) "t").deleted =
        List.replicate 100 staleBlock ∧
    (updateSitemapPage [] (List.replicate 101 staleBlock) "t").finalBlocks =
        staleBlock :: metadataBlocks "t" := by
  constructor
  · simp [updateSitemapPage, LIST_DEFAULT_PAGE_SIZE, List.take_replicate]
  · simp [updateSitemapPage, LIST_DEFAULT_PAGE_SIZE, List.drop_replicate,
      appendBatches_eq, sliceBatches_flatten, metadataBlocks]

/-- C2: `treeToNotionBlocks` is exactly the depth-first preorder flattening
of the tree, mapping each node at its rendering depth to the single display
block `renderedBlockSpec` — a `heading_1` for the root at depth 0, and for
every deeper node one `bulleted_list_item` carrying the hierarchy marker
`getEmojiForDepth` and a link to the node's url. -/
theorem treeToNotionBlocks_preorder_map (t : SitemapNode) :
    treeToNotionBlocks (some t) = (preorderNodes t 0).map renderedBlockSpec := by
  simp [treeToNotionBlocks, treeBlocksGo_eq_map]

/-- C3 (amended): a recursive call entered with depth greater than
`MAX_DEPTH` returns null and leaves the visited set unchanged, and every
node of a tree built from depth 0 has depth at most `MAX_DEPTH + 1` (a
database leaf attached by a page sitting at depth `MAX_DEPTH` has depth
`MAX_DEPTH + 1`; see the counterexample for depth `MAX_DEPTH` itself). -/
theorem buildSitemapTree_depth_capped (env : NotionEnv) (pid : String)
    (d : Nat) (v : List String) :
    (MAX_DEPTH < d → buildSitemapTree env pid d v = (none, v)) ∧
    ((buildSitemapTree env pid 0 v).1.all
      (fun t => depthsLeB (MAX_DEPTH + 1) t)) = true := by
  constructor
  · intro hd
    exact buildSitemapTree_guard_eq (Or.inl hd)
  · cases hres : (buildSitemapTree env pid 0 v).1 with
    | none => rfl
    | some t =>
      have h := ((treeInv_all env pid 0 v).2 t hres).2.1
      simpa [Option.all] using h

theorem buildSitemapTree_depth_capped_witness :
    MAX_DEPTH < 5 ∧ buildSitemapTree envDepthChain "x" 5 [] = (none, []) ∧
    ((buildSitemapTree envDepthChain "r" 0 []).1.all
      (fun t => depthsLeB (MAX_DEPTH + 1) t)) = true :=
  ⟨by decide,
    (buildSitemapTree_depth_capped envDepthChain "x" 5 []).1 (by decide),
    (buildSitemapTree_depth_capped envDepthChain "r" 0 []).2⟩

/-- C3 (counterexample): on the five-page chain `r → a → b → c → d` whose
deepest page `d` (depth `MAX_DEPTH`) contains a database, the built tree has
a node of depth `MAX_DEPTH + 1 = 5`, so not every node's depth is at most
`MAX_DEPTH`. -/
theorem buildSitemapTree_depth_counterexample :
    ((buildSitemapTree envDepthChain "r" 0 []).1.all
      (fun t => depthsLeB MAX_DEPTH t)) = false := by
  simp [buildSitemapTree, buildChildren, getPageDetails, getChildPages,
    getChildPagesLoop, blockToChildItems, envDepthChain, depthChainList, pageW,
    extractTitle, lookupProp, truthyTitle, MAX_DEPTH, depthsLeB, nodesOf,
    nodesOfForest, notionUrl, SitemapNode.depth]

/-- C4: a page id already in the visited set is skipped — the call returns
null and leaves the set unchanged — and consequently, whenever the API only
serves page objects, the page ids of a returned tree are pairwise distinct,
on every remote graph, cyclic ones included. -/
theorem buildSitemapTree_cycle_guard (env : NotionEnv) (pid : String) (d : Nat)
    (v : List String) :
    (pid ∈ v → buildSitemapTree env pid d v = (none, v)) ∧
    (pagesOnly env →
      ((buildSitemapTree env pid d v).1.all
        (fun t => decide (pageIdsOf t).Nodup)) = true) := by
  constructor
  · intro hv
    exact buildSitemapTree_guard_eq (Or.inr hv)
  · intro hp
    cases hres : (buildSitemapTree env pid d v).1 with
    | none => rfl
    | some t =>
      have h := (((treeInv_all env pid d v).2 t hres).2.2 hp).2.1
      simpa [Option.all] using h

theorem buildSitemapTree_cycle_guard_witness :
    (("a" : String) ∈ ["a"] ∧
      buildSitemapTree envCycle "a" 0 ["a"] = (none, ["a"])) ∧
    ((buildSitemapTree envCycle "a" 0 []).1.all
      (fun t => decide (pageIdsOf t).Nodup)) = true :=
  ⟨⟨by decide,
      (buildSitemapTree_cycle_guard envCycle "a" 0 ["a"]).1 (by decide)⟩,
    (buildSitemapTree_cycle_guard envCycle "a" 0 []).2
      (pagesOnly_constW cycleList)⟩

/-- C5: under a well-formed pagination run, `getChildPages` returns exactly
the `child_page` and `child_database` blocks of all responses, in response
order, converted by `childItemSpec`; every other block type is excluded. -/
theorem getChildPages_paginated_filter (env : NotionEnv) (pid : String)
    (rs : List ListResponse) (hresp : env.listResponses pid = rs.map Except.ok)
    (hchain : paginationChain rs = true) :
    getChildPages env pid =
      ((rs.map ListResponse.results).flatten).filterMap childItemSpec := by
  rw [getChildPages, hresp, getChildPagesLoop_spec rs hchain]

theorem getChildPages_paginated_filter_witness :
    envPaged.listResponses "p" =
      ([⟨[⟨"c1", "child_page", "C1"⟩, ⟨"t1", "paragraph", ""⟩], true⟩,
        ⟨[⟨"c2", "child_database", "C2"⟩], false⟩] :
        List ListResponse).map Except.ok ∧
    paginationChain
      [⟨[⟨"c1", "child_page", "C1"⟩, ⟨"t1", "paragraph", ""⟩], true⟩,
        ⟨[⟨"c2", "child_database", "C2"⟩], false⟩] = true ∧
    getChildPages envPaged "p" =
      ((([⟨[⟨"c1", "child_page", "C1"⟩, ⟨"t1", "paragraph", ""⟩], true⟩,
          ⟨[⟨"c2", "child_database", "C2"⟩], false⟩] :
          List ListResponse).map ListResponse.results).flatten).filterMap
        childItemSpec :=
  ⟨rfl, rfl, getChildPages_paginated_filter envPaged "p" _ rfl rfl⟩

/-- C6: `getPageDetails` returns null exactly when the remote retrieval
throws (the error being swallowed by the try/catch — the embedding is total),
and on success returns the metadata record whose id is the requested page id,
whose title is the extracted title and whose type is the page object's kind. -/
theorem getPageDetails_ok_iff (env : NotionEnv) (pid : String) :
    (getPageDetails env pid = none ↔
      ∃ e, env.retrievePage pid = Except.error e) ∧
    (∀ page, env.retrievePage pid = Except.ok page →
      getPageDetails env pid =
        some ⟨pid, extractTitle page, notionUrl pid, page.object,
          page.last_edited_time⟩) := by
  constructor
  · cases h : env.retrievePage pid with
    | error e => simp [getPageDetails, h]
    | ok page => simp [getPageDetails, h]
  · intro page h
    simp [getPageDetails, h]

theorem getPageDetails_ok_iff_witness :
    envErr.retrievePage "p" = Except.ok pageW ∧
    getPageDetails envErr "p" =
      some ⟨"p", extractTitle pageW, notionUrl "p", pageW.object,
        pageW.last_edited_time⟩ ∧
    getPageDetails envErr "q" = none :=
  ⟨rfl, (getPageDetails_ok_iff envErr "p").2 pageW rfl,
    (getPageDetails_ok_iff envErr "q").1.mpr ⟨"boom", rfl⟩⟩

/-- C7: the publisher sends `[...metadataBlocks, ...blocks]` to the target
page as consecutive batches of at most 100 blocks whose concatenation is the
full sequence — every block appended exactly once, in order. -/
theorem updateSitemapPage_appends_in_batches (blocks existing : List Block)
    (now : String) :
    ((updateSitemapPage blocks existing now).appendCalls.all
      (fun b => decide (b.length ≤ 100))) = true ∧
    (updateSitemapPage blocks existing now).appendCalls.flatten =
      metadataBlocks now ++ blocks := by
  constructor
  · rw [List.all_eq_true]
    intro b hb
    simp only [updateSitemapPage] at hb
    exact decide_eq_true
      (sliceBatches_size_aux (metadataBlocks now ++ blocks)
        (metadataBlocks now ++ blocks).length 0 (by omega) b hb)
  · simp only [updateSitemapPage]
    exact sliceBatches_flatten (metadataBlocks now ++ blocks)

/-- C8: the rendered block count equals `countPages`, for every tree
including the null one: each node yields exactly one display block. -/
theorem treeToNotionBlocks_length_eq_countPages (tree : Option SitemapNode) :
    (treeToNotionBlocks tree).length = countPages tree := by
  cases tree with
  | none => rfl
  | some t =>
    simp [treeToNotionBlocks, countPages, treeBlocksGo_eq_map,
      preorderNodes_length]

/-- C9: every run writes exactly the timestamp callout and a divider ahead
of the rendered blocks — the appended content is always these two metadata
blocks followed by `blocks`. -/
theorem updateSitemapPage_prepends_metadata (blocks existing : List Block)
    (now : String) :
    (updateSitemapPage blocks existing now).appendCalls.flatten =
      Block.callout
          [⟨"Auto-generated sitemap • Last updated: " ++ now, none, false,
            false, none⟩]
          "🗺️" "blue_background"
        :: Block.divider :: blocks := by
  simp only [updateSitemapPage]
  rw [sliceBatches_flatten]
  simp [metadataBlocks]

/-- C10: when the API only serves page objects, every node of type
`"database"` in a built tree is a leaf — its children array is empty,
whatever the database contains remotely. -/
theorem buildSitemapTree_database_leaves (env : NotionEnv) (pid : String)
    (d : Nat) (v : List String) (hp : pagesOnly env) :
    ((buildSitemapTree env pid d v).1.all (fun t => dbLeavesB t)) = true := by
  cases hres : (buildSitemapTree env pid d v).1 with
  | none => rfl
  | some t =>
    have h := (((treeInv_all env pid d v).2 t hres).2.2 hp).1
    simpa [Option.all] using h

theorem buildSitemapTree_database_leaves_witness :
    getChildPages envDbChildren "d" = [⟨"x", "X", "page"⟩] ∧
    ((buildSitemapTree envDbChildren "r" 0 []).1.all
      (fun t => dbLeavesB t)) = true :=
  ⟨by decide,
    buildSitemapTree_database_leaves envDbChildren "r" 0 []
      (pagesOnly_constW dbChildrenList)⟩
